import Mathlib

/-!
# Skyhook file format: dispatcher contract and wire codecs

A shallow embedding of `cpp/src/arrow/dataset/file_skyhook.h`.

* The inline members of `SkyhookFileFormat` (`type_name`, `splittable`, `Equals`,
  `IsSupported`, `MakeWriter`, `DefaultWriteOptions`), the `SkyhookFileType` enum and the
  error-code macros are translated from the header.
* `SerializeScanRequest`, `DeserializeScanRequest`, `SerializeTable` and `DeserializeTable`
  are only declared in the header; their bodies are modelled from the specification's
  description of the wire formats.
-/

set_option autoImplicit false

namespace Skyhook

/-! ## Error codes (header lines 52-59) -/

def SCAN_ERR_CODE : Nat := 25
def SCAN_ERR_MSG : String := "failed to scan file fragment"

def SCAN_REQ_DESER_ERR_CODE : Nat := 26
def SCAN_REQ_DESER_ERR_MSG : String := "failed to deserialize scan request"

def SCAN_RES_SER_ERR_CODE : Nat := 27
def SCAN_RES_SER_ERR_MSG : String := "failed to serialize result table"

/-- The code/message pairs the header defines, in the order of definition. -/
def errorTable : List (Nat × String) :=
  [(SCAN_ERR_CODE, SCAN_ERR_MSG),
   (SCAN_REQ_DESER_ERR_CODE, SCAN_REQ_DESER_ERR_MSG),
   (SCAN_RES_SER_ERR_CODE, SCAN_RES_SER_ERR_MSG)]

/-- Message paired with a code in the table, if any. -/
def messageOfCode (code : Nat) : Option String :=
  (errorTable.find? (fun p => p.1 == code)).map Prod.snd

/-- Code paired with a message in the table, if any. -/
def codeOfMessage (msg : String) : Option Nat :=
  (errorTable.find? (fun p => p.2 == msg)).map Prod.fst

/-! ## `enum SkyhookFileType { PARQUET, IPC }` (header line 64) -/

inductive SkyhookFileType where
  | PARQUET
  | IPC
  deriving DecidableEq, Repr

/-- Integer value of an enumerator: unscoped C++ enumerators count up from 0. -/
def SkyhookFileType.toInt : SkyhookFileType → Int
  | .PARQUET => 0
  | .IPC => 1

/-- Conversion of an `int` back to the enumerator carrying that value. -/
def SkyhookFileType.ofInt (i : Int) : Option SkyhookFileType :=
  if i = SkyhookFileType.PARQUET.toInt then some .PARQUET
  else if i = SkyhookFileType.IPC.toInt then some .IPC
  else none

/-- Range of a signed 32-bit `int`. -/
def fitsInt32 (i : Int) : Prop := -(2 : Int) ^ 31 ≤ i ∧ i < (2 : Int) ^ 31

instance (i : Int) : Decidable (fitsInt32 i) := by
  unfold fitsInt32; infer_instance

/-! ## `Status` / `Result<T>` as far as the header uses them -/

/-- Status codes the header produces. -/
inductive StatusCode where
  | NotImplemented
  deriving DecidableEq, Repr

/-- A non-OK `Status`: a code and a message. -/
structure Status where
  code : StatusCode
  msg : String
  deriving DecidableEq, Repr

/-- `Status::NotImplemented(msg)`. -/
def Status.NotImplemented (msg : String) : Status := ⟨.NotImplemented, msg⟩

deriving instance DecidableEq for Except

/-- `Result<T>`: a value or a non-OK status. -/
abbrev Result (α : Type) := Except Status α

/-! ## `class SkyhookFileFormat : public ParquetFileFormat` (header lines 73-112) -/

/-- The part of a `FileFormat` object visible through the base-class reference that
`Equals` receives: the result of the virtual `type_name()` call and whatever other
state the concrete format carries. -/
structure FileFormat where
  type_name : String
  state : List String
  deriving DecidableEq, Repr

/-- An instance as built by the six-argument constructor. -/
structure SkyhookFileFormat where
  format : String
  ceph_config_path : String
  data_pool : String
  user_name : String
  cluster_name : String
  cls_name : String
  deriving DecidableEq, Repr

/-- `FileSource`: a path or an in-memory buffer; `exists_` records whether it can be opened. -/
structure FileSource where
  path : String
  exists_ : Bool
  contents : List Nat
  deriving DecidableEq, Repr

/-- Stand-ins for the pointees of the `shared_ptr` arguments of `MakeWriter`. -/
structure OutputStream where
  name : String
  deriving DecidableEq, Repr

structure Schema where
  fields : List String
  deriving DecidableEq, Repr

structure FileWriteOptions where
  settings : List String
  deriving DecidableEq, Repr

structure FileWriter where
  destination : OutputStream
  schema : Schema
  options : FileWriteOptions
  deriving DecidableEq, Repr

namespace SkyhookFileFormat

/-- `std::string type_name() const override { return "skyhook"; }` -/
def type_name (_self : SkyhookFileFormat) : String := "skyhook"

/-- `bool splittable() const { return true; }` -/
def splittable (_self : SkyhookFileFormat) : Bool := true

/-- A Skyhook format seen through a `const FileFormat&`. -/
def toFileFormat (self : SkyhookFileFormat) : FileFormat :=
  { type_name := self.type_name
    state := [self.format, self.ceph_config_path, self.data_pool, self.user_name,
              self.cluster_name, self.cls_name] }

/-- `bool Equals(const FileFormat& other) const override
      { return type_name() == other.type_name(); }` -/
def Equals (self : SkyhookFileFormat) (other : FileFormat) : Bool :=
  self.type_name == other.type_name

/-- `Result<bool> IsSupported(const FileSource& source) const override { return true; }` -/
def IsSupported (_self : SkyhookFileFormat) (_source : FileSource) : Result Bool :=
  .ok true

/-- `MakeWriter(destination, schema, options) const
      { return Status::NotImplemented("Use the Python API"); }`
The three `shared_ptr` arguments may be null, hence `Option`. -/
def MakeWriter (_self : SkyhookFileFormat) (_destination : Option OutputStream)
    (_schema : Option Schema) (_options : Option FileWriteOptions) : Result FileWriter :=
  .error (Status.NotImplemented "Use the Python API")

/-- `std::shared_ptr<FileWriteOptions> DefaultWriteOptions() override { return NULLPTR; }` -/
def DefaultWriteOptions (_self : SkyhookFileFormat) : Option FileWriteOptions :=
  none

end SkyhookFileFormat

/-- A plain `ParquetFileFormat` seen through a `const FileFormat&`; its type name is
declared outside this header and is taken as a parameter. -/
def plainParquet (parquetTypeName : String) (readerOptions : List String) : FileFormat :=
  { type_name := parquetTypeName, state := readerOptions }

/-! ## Wire-level building blocks

The header declares the four codec entry points without bodies. The definitions below
follow the specification: section 4.1 and section 6 for the scan request
(`int32 file_format | int64 file_size | {int32 len, bytes}×4`), section 4.2 for the
result table. Integers are laid out least-significant byte first. -/

/-- One octet of a `ceph::bufferlist`. -/
abbrev Byte := Fin 256

/-- Contents of a `ceph::bufferlist`. -/
abbrev Buffer := List Byte

/-- Modelled from the spec: the error kinds of section 7; the codec bodies that raise them
are not in the header. -/
inductive ErrorKind where
  | ScanError
  | DeserializationError
  | SerializationError
  deriving DecidableEq, Repr

/-- Stable numeric code of an error kind, from the header's macros. -/
def ErrorKind.code : ErrorKind → Nat
  | .ScanError => SCAN_ERR_CODE
  | .DeserializationError => SCAN_REQ_DESER_ERR_CODE
  | .SerializationError => SCAN_RES_SER_ERR_CODE

/-- Stable message of an error kind, from the header's macros. -/
def ErrorKind.message : ErrorKind → String
  | .ScanError => SCAN_ERR_MSG
  | .DeserializationError => SCAN_REQ_DESER_ERR_MSG
  | .SerializationError => SCAN_RES_SER_ERR_MSG

/-- Modelled from the spec: the `width` low-order octets of `v`, least significant first;
the integer-writing code is not in the header and the specification fixes no byte order. -/
def encodeLE : Nat → Nat → Buffer
  | 0, _ => []
  | width + 1, v => ⟨v % 256, Nat.mod_lt _ (by decide)⟩ :: encodeLE width (v / 256)

/-- Modelled from the spec: unsigned value of an octet string written by `encodeLE`; the
integer-reading code is not in the header. -/
def decodeLE : Buffer → Nat
  | [] => 0
  | b :: bs => b.val + 256 * decodeLE bs

/-- Two's-complement bit pattern of `i` in `bits` bits (the representation of `int` and
`int64_t`). -/
def toUnsigned (bits : Nat) (i : Int) : Nat := (i % (2 : Int) ^ bits).toNat

/-- Signed reading of a `bits`-bit pattern. -/
def toSigned (bits : Nat) (u : Nat) : Int :=
  if u < 2 ^ (bits - 1) then (u : Int) else (u : Int) - (2 : Int) ^ bits

/-- Modelled from the spec: an `int32` as it appears on the wire (section 6); the
writing code is not in the header. -/
def encodeInt32 (i : Int) : Buffer := encodeLE 4 (toUnsigned 32 i)

/-- Modelled from the spec: an `int64` as it appears on the wire (section 6); the
writing code is not in the header. -/
def encodeInt64 (i : Int) : Buffer := encodeLE 8 (toUnsigned 64 i)

/-- Modelled from the spec: advance the forward-only cursor of section 3 by `n` octets;
fails on a truncated buffer. The buffer-reading code is not in the header. -/
def readBytes (n : Nat) (buf : Buffer) : Option (Buffer × Buffer) :=
  if n ≤ buf.length then some (buf.take n, buf.drop n) else none

/-- Modelled from the spec: read one `int32` (section 6); the reading code is not in the
header. -/
def readInt32 (buf : Buffer) : Option (Int × Buffer) :=
  match readBytes 4 buf with
  | some (bs, rest) => some (toSigned 32 (decodeLE bs), rest)
  | none => none

/-- Modelled from the spec: read one `int64` (section 6); the reading code is not in the
header. -/
def readInt64 (buf : Buffer) : Option (Int × Buffer) :=
  match readBytes 8 buf with
  | some (bs, rest) => some (toSigned 64 (decodeLE bs), rest)
  | none => none

/-- Modelled from the spec: one length-prefixed field `{int32 len, bytes}` as written by
the encoder (section 4.1), whose body is not in the header. -/
def frame (payload : Buffer) : Buffer :=
  encodeInt32 (payload.length : Int) ++ payload

/-- Modelled from the spec: read one length-prefixed field; "before consuming each field,
validates that its declared length does not exceed the number of bytes remaining", and a
negative length is rejected (section 4.1). Part of the decoder body missing from the
header. -/
def readField (buf : Buffer) : Option (Buffer × Buffer) :=
  match readInt32 buf with
  | none => none
  | some (len, rest) =>
    if len < 0 then none
    else if rest.length < len.toNat then none
    else some (rest.take len.toNat, rest.drop len.toNat)

/-- Modelled from the spec: an external binary codec for values of type `α` (the
expression and schema serializers are collaborators outside the header, section 1);
both directions can reject. -/
structure PayloadCodec (α : Type) where
  encode : α → Option Buffer
  decode : Buffer → Option α

/-- The contract of an external codec: what it wrote, it reads back. -/
def PayloadCodec.Lawful {α : Type} (c : PayloadCodec α) : Prop :=
  ∀ a bs, c.encode a = some bs → c.decode bs = some a

/-- The codec of a payload type that is its own byte string. -/
def rawCodec : PayloadCodec Buffer :=
  { encode := fun bs => some bs, decode := fun bs => some bs }

/-! ## Scan request codec (header lines 114-138, specification section 4.1) -/

/-- The members of `ScanOptions` that `SerializeScanRequest` reads. -/
structure ScanOptions (E S : Type) where
  filter : E
  partition_expression : E
  projected_schema : S
  dataset_schema : S
  deriving DecidableEq, Repr

/-- The six values `DeserializeScanRequest` hands back through its out-parameters. -/
structure ScanRequest (E S : Type) where
  filter : E
  partition : E
  projected_schema : S
  dataset_schema : S
  file_size : Int
  file_format : Int
  deriving DecidableEq, Repr

/-- Modelled from the spec: body of `SerializeScanRequest(options, file_format, file_size, bl)`,
declared in the header without a body. Section 4.1: a fixed header of
(file_format: int32, file_size: int64), then filter, partition, projected schema and
dataset schema, each as (length: int32, payload); fails with a SerializationError if a
sub-encode fails, and nothing is written then. -/
def SerializeScanRequest {E S : Type} (ec : PayloadCodec E) (sc : PayloadCodec S)
    (options : ScanOptions E S) (file_format : Int) (file_size : Int) :
    Except ErrorKind Buffer :=
  match ec.encode options.filter, ec.encode options.partition_expression,
        sc.encode options.projected_schema, sc.encode options.dataset_schema with
  | some filter, some partition, some projected, some dataset =>
    .ok (encodeInt32 file_format ++ encodeInt64 file_size ++ frame filter ++
         frame partition ++ frame projected ++ frame dataset)
  | _, _, _, _ => .error .SerializationError

/-- Modelled from the spec: read one length-prefixed field and run the external decoder
on its payload (section 4.1); part of the decoder body missing from the header. -/
def readPayload {α : Type} (c : PayloadCodec α) (buf : Buffer) : Option (α × Buffer) :=
  match readField buf with
  | none => none
  | some (payload, rest) =>
    match c.decode payload with
    | none => none
    | some a => some (a, rest)

/-- Modelled from the spec: the forward pass of the decoder over the buffer: header,
then the four fields in the encoder's order (section 4.1). Returns the request and
the unread tail. -/
def parseScanRequest {E S : Type} (ec : PayloadCodec E) (sc : PayloadCodec S)
    (bl : Buffer) : Option (ScanRequest E S × Buffer) := do
  let (file_format, b1) ← readInt32 bl
  let (file_size, b2) ← readInt64 b1
  let (filter, b3) ← readPayload ec b2
  let (partition, b4) ← readPayload ec b3
  let (projected_schema, b5) ← readPayload sc b4
  let (dataset_schema, b6) ← readPayload sc b5
  pure ({ filter, partition, projected_schema, dataset_schema, file_size, file_format }, b6)

/-- Modelled from the spec: body of `DeserializeScanRequest(filter, partition,
projected_schema, dataset_schema, file_size, file_format, bl)`, declared in the header
without a body. Section 4.1: any sub-decoder rejection, a negative or oversized length,
or a truncated buffer fails with DeserializationError. -/
def DeserializeScanRequest {E S : Type} (ec : PayloadCodec E) (sc : PayloadCodec S)
    (bl : Buffer) : Except ErrorKind (ScanRequest E S) :=
  match parseScanRequest ec sc bl with
  | some (r, _) => .ok r
  | none => .error .DeserializationError

/-- The `ScanOptions` members a request was built from. -/
def ScanRequest.options {E S : Type} (r : ScanRequest E S) : ScanOptions E S :=
  { filter := r.filter
    partition_expression := r.partition
    projected_schema := r.projected_schema
    dataset_schema := r.dataset_schema }

/-- Encode a request value: `SerializeScanRequest` on its three arguments. -/
def ScanRequest.encode {E S : Type} (ec : PayloadCodec E) (sc : PayloadCodec S)
    (r : ScanRequest E S) : Except ErrorKind Buffer :=
  SerializeScanRequest ec sc r.options r.file_format r.file_size

/-- A payload the wire format can carry: the external encoder accepts the value and the
byte count fits the `int32` length prefix. -/
def Carries {α : Type} (c : PayloadCodec α) (a : α) : Prop :=
  ∃ bs, c.encode a = some bs ∧ bs.length < 2 ^ 31

/-- A well-formed request (section 3): `file_size` is a non-negative `int64`,
`file_format` is one of the two enumerators, and the four payloads are in the space the
external codecs and the length prefix represent. -/
structure ScanRequest.WellFormed {E S : Type} (ec : PayloadCodec E) (sc : PayloadCodec S)
    (r : ScanRequest E S) : Prop where
  size_nonneg : 0 ≤ r.file_size
  size_int64 : r.file_size < (2 : Int) ^ 63
  format_tag : r.file_format = SkyhookFileType.PARQUET.toInt ∨
    r.file_format = SkyhookFileType.IPC.toInt
  filter_ok : Carries ec r.filter
  partition_ok : Carries ec r.partition
  projected_ok : Carries sc r.projected_schema
  dataset_ok : Carries sc r.dataset_schema

/-- A valid encoded scan request: the output of the encoder on a well-formed request. -/
def ValidEncoded {E S : Type} (ec : PayloadCodec E) (sc : PayloadCodec S) (b : Buffer) : Prop :=
  ∃ r : ScanRequest E S, r.WellFormed ec sc ∧ r.encode ec sc = .ok b

/-! ## Result table codec (header lines 140-154, specification section 4.2) -/

/-- The two codecs named by the header: "If true, use ZSTD compression instead of LZ4". -/
inductive Compression where
  | LZ4
  | ZSTD
  deriving DecidableEq, Repr

/-- Codec selected by the `aggressive` flag: the high-ratio codec when set, the fast one
otherwise. -/
def selectCompression (aggressive : Bool) : Compression :=
  if aggressive then .ZSTD else .LZ4

/-- Modelled from the spec: a table is an ordered sequence of record batches sharing one
schema (section 3); the `Table` class is declared outside the header. -/
structure Table (S B : Type) where
  schema : S
  batches : List B
  deriving DecidableEq, Repr

/-- Modelled from the spec: one field of a stored batch, the compressed body together with
the tag of the codec that produced it (the container's own metadata, section 4.2); the
container writer is not in the header. -/
structure StoredField where
  codec : Compression
  body : Buffer
  deriving DecidableEq, Repr

/-- Modelled from the spec: the self-describing streaming container held by the result
buffer (sections 4.2 and 6): the schema once, then the batches in order, every field of
a batch carrying its compression tag. The specification gives no byte layout for it. -/
structure TableContainer where
  schema : Buffer
  batches : List (List StoredField)
  deriving DecidableEq, Repr

/-- Modelled from the spec: the external collaborators of the result-table codec, none of
them in the header: the schema codec, the record-batch writer and reader of a stream
opened for a schema, and the compression library. -/
structure TableCodecs (S B : Type) where
  schema : PayloadCodec S
  encodeBatch : S → B → Option (List Buffer)
  decodeBatch : S → List Buffer → Option B
  compress : Compression → Buffer → Option Buffer
  decompress : Compression → Buffer → Option Buffer

/-- The contract of the collaborators: each reader inverts its writer. -/
structure TableCodecs.Lawful {S B : Type} (env : TableCodecs S B) : Prop where
  schema_law : env.schema.Lawful
  batch_law : ∀ s b bodies, env.encodeBatch s b = some bodies → env.decodeBatch s bodies = some b
  compress_law : ∀ c x y, env.compress c x = some y → env.decompress c y = some x

/-- Modelled from the spec: compress one field body with the chosen codec and tag it
(section 4.2); part of the `SerializeTable` body missing from the header. -/
def storeField {S B : Type} (env : TableCodecs S B) (codec : Compression) (body : Buffer) :
    Option StoredField :=
  match env.compress codec body with
  | none => none
  | some compressed => some { codec := codec, body := compressed }

/-- Modelled from the spec: write one batch, its field bodies each compressed with the
chosen codec (section 4.2); part of the `SerializeTable` body missing from the header. -/
def storeBatch {S B : Type} (env : TableCodecs S B) (codec : Compression) (schema : S)
    (batch : B) : Option (List StoredField) :=
  match env.encodeBatch schema batch with
  | none => none
  | some bodies => bodies.mapM (storeField env codec)

/-- Modelled from the spec: body of `SerializeTable(table, bl, aggressive)`, declared in
the header without a body. Section 4.2: select the codec from `aggressive`, write the
schema once and then the compressed batches; any writer failure is a SerializationError
and no buffer is produced. -/
def SerializeTable {S B : Type} (env : TableCodecs S B) (table : Table S B)
    (aggressive : Bool) : Except ErrorKind TableContainer :=
  let codec := selectCompression aggressive
  match env.schema.encode table.schema with
  | none => .error .SerializationError
  | some schema =>
    match table.batches.mapM (storeBatch env codec table.schema) with
    | none => .error .SerializationError
    | some batches => .ok { schema := schema, batches := batches }

/-- Modelled from the spec: read one stored batch, decompressing every field with the
codec its tag names, then rebuild the batch (section 4.2); part of the `DeserializeTable`
body missing from the header. -/
def loadBatch {S B : Type} (env : TableCodecs S B) (schema : S) (stored : List StoredField) :
    Option B :=
  match stored.mapM (fun f => env.decompress f.codec f.body) with
  | none => none
  | some bodies => env.decodeBatch schema bodies

/-- Modelled from the spec: decoding on the calling thread, the batches one after the
other (section 4.2); part of the `DeserializeTable` body missing from the header. -/
def loadSequential {S B : Type} (env : TableCodecs S B) (schema : S)
    (stored : List (List StoredField)) : Option (List B) :=
  stored.mapM (loadBatch env schema)

/-- Modelled from the spec: decoding with workers (section 4.2, "batch i in the buffer
must be batch i in the output regardless of which worker decoded it"); part of the
`DeserializeTable` body missing from the header. `completion` lists the batch indices in
the order in which the workers finish; every finished batch is kept with its index, and
output slot `i` takes the batch tagged `i`. A slot no worker filled makes the read fail. -/
def loadThreaded {S B : Type} (env : TableCodecs S B) (schema : S)
    (stored : List (List StoredField)) (completion : List Nat) : Option (List B) :=
  let finished : List (Nat × Option B) :=
    completion.map (fun i => (i, stored[i]?.bind (loadBatch env schema)))
  (List.range stored.length).mapM (fun i => (finished.lookup i).join)

/-- Modelled from the spec: body of `DeserializeTable(batches, bl, use_threads)`, declared
in the header without a body. Section 4.2: read the embedded schema, then every batch,
taking the codec from the container; with `use_threads` the batches are decoded by
workers finishing in the order `completion`. Anything unreadable is a
DeserializationError. -/
def DeserializeTable {S B : Type} (env : TableCodecs S B) (bl : TableContainer)
    (use_threads : Bool) (completion : List Nat) : Except ErrorKind (List B) :=
  match env.schema.decode bl.schema with
  | none => .error .DeserializationError
  | some schema =>
    let loaded :=
      if use_threads then loadThreaded env schema bl.batches completion
      else loadSequential env schema bl.batches
    match loaded with
    | none => .error .DeserializationError
    | some batches => .ok batches

/-- The collaborators accept the table: the writers and the compressor succeed on every
part of it with the codec in use. -/
def TableCodecs.Accepts {S B : Type} (env : TableCodecs S B) (codec : Compression)
    (table : Table S B) : Prop :=
  (∃ bs, env.schema.encode table.schema = some bs) ∧
  ∀ b ∈ table.batches, ∃ bodies, env.encodeBatch table.schema b = some bodies ∧
    ∀ body ∈ bodies, ∃ y, env.compress codec body = some y

/-- Every batch index below `n` is handed to some worker. -/
def CoversAll (n : Nat) (completion : List Nat) : Prop :=
  ∀ i, i < n → i ∈ completion

/-! ## Concrete collaborators used to instantiate the theorems -/

/-- A toy compressor: the fast codec prefixes a marker octet, the high-ratio codec
reverses the body and prefixes another. -/
def toyCompress : Compression → Buffer → Option Buffer
  | .LZ4, x => some ((0 : Byte) :: x)
  | .ZSTD, x => some ((1 : Byte) :: x.reverse)

def toyDecompress : Compression → Buffer → Option Buffer
  | .LZ4, (0 : Byte) :: x => some x
  | .ZSTD, (1 : Byte) :: x => some x.reverse
  | _, _ => none

/-- Collaborators for a stream whose schema is a raw byte string and whose batches are
the lists of their field bodies. -/
def toyCodecs : TableCodecs Buffer (List Buffer) :=
  { schema := rawCodec
    encodeBatch := fun _ batch => some batch
    decodeBatch := fun _ bodies => some bodies
    compress := toyCompress
    decompress := toyDecompress }

/-- A table of three batches: two fields, one field, no field. -/
def sampleTable : Table Buffer (List Buffer) :=
  { schema := [7], batches := [[[1, 2], [3]], [[4]], []] }

/-- A request over the raw codec: three-octet filter, empty partition expression, two
schemas, a 1000-byte IPC file. -/
def sampleRequest : ScanRequest Buffer Buffer :=
  { filter := [1, 2, 3], partition := [], projected_schema := [7], dataset_schema := [7, 8],
    file_size := 1000, file_format := 1 }

/-- The 34 octets the encoder writes for `sampleRequest`. -/
def sampleEncoded : Buffer :=
  [1, 0, 0, 0, 232, 3, 0, 0, 0, 0, 0, 0, 3, 0, 0, 0, 1, 2, 3, 0, 0, 0, 0, 1, 0, 0, 0, 7,
   2, 0, 0, 0, 7, 8]

/-! ## Theorems: dispatcher contract -/

/-- Lookup by code, spelled out. -/
theorem messageOfCode_eq (c : Nat) :
    messageOfCode c =
      if c = 25 then some SCAN_ERR_MSG
      else if c = 26 then some SCAN_REQ_DESER_ERR_MSG
      else if c = 27 then some SCAN_RES_SER_ERR_MSG
      else none := by
  simp only [messageOfCode, errorTable, SCAN_ERR_CODE, SCAN_REQ_DESER_ERR_CODE,
    SCAN_RES_SER_ERR_CODE]
  by_cases h1 : c = 25
  · subst h1; rfl
  · by_cases h2 : c = 26
    · subst h2; rfl
    · by_cases h3 : c = 27
      · subst h3; rfl
      · have e1 : ((25 : Nat) == c) = false := by simpa using Ne.symm h1
        have e2 : ((26 : Nat) == c) = false := by simpa using Ne.symm h2
        have e3 : ((27 : Nat) == c) = false := by simpa using Ne.symm h3
        simp [List.find?_cons, e1, e2, e3, h1, h2, h3]

/-- Lookup by message, spelled out. -/
theorem codeOfMessage_eq (m : String) :
    codeOfMessage m =
      if m = SCAN_ERR_MSG then some 25
      else if m = SCAN_REQ_DESER_ERR_MSG then some 26
      else if m = SCAN_RES_SER_ERR_MSG then some 27
      else none := by
  simp only [codeOfMessage, errorTable, SCAN_ERR_CODE, SCAN_REQ_DESER_ERR_CODE,
    SCAN_RES_SER_ERR_CODE]
  by_cases h1 : m = SCAN_ERR_MSG
  · subst h1; rfl
  · by_cases h2 : m = SCAN_REQ_DESER_ERR_MSG
    · subst h2; rfl
    · by_cases h3 : m = SCAN_RES_SER_ERR_MSG
      · subst h3; rfl
      · have e1 : (SCAN_ERR_MSG == m) = false := by simpa using Ne.symm h1
        have e2 : (SCAN_REQ_DESER_ERR_MSG == m) = false := by simpa using Ne.symm h2
        have e3 : (SCAN_RES_SER_ERR_MSG == m) = false := by simpa using Ne.symm h3
        simp [List.find?_cons, e1, e2, e3, h1, h2, h3]


/-- C1: any two `SkyhookFileFormat` instances compare equal, whatever their six
construction arguments are. -/
theorem equals_any_two_instances (a b : SkyhookFileFormat) :
    a.Equals b.toFileFormat = true := by
  simp [SkyhookFileFormat.Equals, SkyhookFileFormat.toFileFormat,
    SkyhookFileFormat.type_name]

/-- An instance configured for one pool. -/
def formatPoolA : SkyhookFileFormat :=
  { format := "parquet", ceph_config_path := "/etc/ceph/ceph.conf", data_pool := "pool-a",
    user_name := "client.admin", cluster_name := "ceph", cls_name := "skyhook" }

/-- C2: `Equals` holds exactly when the other format's type name is "skyhook"; it is the
same for every receiver and for every argument with the same type name, and it is false
for a plain Parquet format whose type name differs from "skyhook". -/
theorem equals_iff_type_name (f : SkyhookFileFormat) (other : FileFormat) :
    (f.Equals other = true ↔ other.type_name = "skyhook") ∧
    (∀ (g : SkyhookFileFormat) (other' : FileFormat),
      other'.type_name = other.type_name → g.Equals other' = f.Equals other) ∧
    (∀ (name : String) (readerOptions : List String),
      name ≠ "skyhook" → f.Equals (plainParquet name readerOptions) = false) := by
  refine ⟨?_, ?_, ?_⟩
  · simp only [SkyhookFileFormat.Equals, SkyhookFileFormat.type_name, beq_iff_eq]
    exact eq_comm
  · intro g other' h
    simp only [SkyhookFileFormat.Equals, SkyhookFileFormat.type_name, h]
  · intro name opts h
    simp only [SkyhookFileFormat.Equals, SkyhookFileFormat.type_name, plainParquet,
      beq_eq_false_iff_ne, ne_eq]
    exact fun e => h e.symm

/-- Instance of C2: a plain Parquet format named "parquet" is not equal to a Skyhook
format. -/
theorem equals_iff_type_name_witness :
    formatPoolA.Equals (plainParquet "parquet" []) = false :=
  (equals_iff_type_name formatPoolA (plainParquet "parquet" [])).2.2 "parquet" [] (by decide)

/-- C3: `MakeWriter` returns the NotImplemented status with message "Use the Python API"
for every receiver and every (possibly null) destination, schema and options, and so
never returns a writer. -/
theorem makeWriter_not_implemented (f : SkyhookFileFormat) (destination : Option OutputStream)
    (schema : Option Schema) (options : Option FileWriteOptions) :
    f.MakeWriter destination schema options
      = .error { code := StatusCode.NotImplemented, msg := "Use the Python API" } ∧
    ∀ w : FileWriter, f.MakeWriter destination schema options ≠ .ok w := by
  constructor
  · rfl
  · intro w h
    simp [SkyhookFileFormat.MakeWriter] at h

/-- C4: the code/message table is 25, 26, 27 with the three fixed messages; codes and
messages are each pairwise distinct, and looking up by code and by message are inverse
to each other. -/
theorem errorTable_exact_and_injective :
    errorTable = [(25, "failed to scan file fragment"),
                  (26, "failed to deserialize scan request"),
                  (27, "failed to serialize result table")] ∧
    (errorTable.map Prod.fst).Nodup ∧
    (errorTable.map Prod.snd).Nodup ∧
    (∀ (c : Nat) (m : String), messageOfCode c = some m ↔ codeOfMessage m = some c) := by
  refine ⟨rfl, by decide, by decide, ?_⟩
  intro c m
  rw [messageOfCode_eq, codeOfMessage_eq]
  constructor
  · intro h
    split_ifs at h with a1 a2 a3
    · cases h; subst a1; decide
    · cases h; subst a2; decide
    · cases h; subst a3; decide
  · intro h
    split_ifs at h with a1 a2 a3
    · cases h; subst a1; decide
    · cases h; subst a2; decide
    · cases h; subst a3; decide

/-- C8: `IsSupported` returns the success value `true` for every receiver and every
source; it is never `false` and never an error. -/
theorem isSupported_always_true (f : SkyhookFileFormat) (source : FileSource) :
    f.IsSupported source = .ok true ∧
    f.IsSupported source ≠ .ok false ∧
    (∀ e : Status, f.IsSupported source ≠ .error e) ∧
    (∀ (g : SkyhookFileFormat) (source' : FileSource),
      g.IsSupported source' = f.IsSupported source) := by
  refine ⟨rfl, ?_, ?_, ?_⟩
  · simp [SkyhookFileFormat.IsSupported]
  · intro e; simp [SkyhookFileFormat.IsSupported]
  · intro g s; rfl

/-- C9: `DefaultWriteOptions` returns the null pointer for every receiver, and
`MakeWriter` called with it (or with anything else) yields no writer. -/
theorem defaultWriteOptions_null (f : SkyhookFileFormat) :
    f.DefaultWriteOptions = none ∧
    (∀ (g : SkyhookFileFormat), g.DefaultWriteOptions = f.DefaultWriteOptions) ∧
    (∀ (destination : Option OutputStream) (schema : Option Schema) (w : FileWriter),
      f.MakeWriter destination schema f.DefaultWriteOptions ≠ .ok w) := by
  refine ⟨rfl, fun _ => rfl, ?_⟩
  intro d s w h
  simp [SkyhookFileFormat.MakeWriter] at h

/-- C10: `SkyhookFileType` has exactly the two values PARQUET = 0 and IPC = 1; the
conversion to `int` is injective, stays within a signed 32-bit integer, and converting
back returns the tag that was converted. -/
theorem fileType_values_and_roundtrip :
    (∀ t : SkyhookFileType, t = .PARQUET ∨ t = .IPC) ∧
    SkyhookFileType.PARQUET.toInt = 0 ∧
    SkyhookFileType.IPC.toInt = 1 ∧
    Function.Injective SkyhookFileType.toInt ∧
    (∀ t : SkyhookFileType, fitsInt32 t.toInt) ∧
    (∀ t : SkyhookFileType, SkyhookFileType.ofInt t.toInt = some t) := by
  refine ⟨?_, rfl, rfl, ?_, ?_, ?_⟩
  · intro t; cases t <;> simp
  · intro a b h
    cases a <;> cases b <;> simp [SkyhookFileType.toInt] at h ⊢
  · intro t; cases t <;> decide
  · intro t; cases t <;> decide

/-! ## Lemmas: integers on the wire -/

theorem encodeLE_length (width v : Nat) : (encodeLE width v).length = width := by
  induction width generalizing v with
  | zero => rfl
  | succ w ih => simp [encodeLE, ih]

theorem decodeLE_encodeLE (width v : Nat) :
    decodeLE (encodeLE width v) = v % 256 ^ width := by
  induction width generalizing v with
  | zero => simp [encodeLE, decodeLE, Nat.mod_one]
  | succ w ih =>
    simp only [encodeLE, decodeLE, ih]
    rw [pow_succ', Nat.mod_mul]

theorem encodeInt32_length (i : Int) : (encodeInt32 i).length = 4 :=
  encodeLE_length 4 _

theorem encodeInt64_length (i : Int) : (encodeInt64 i).length = 8 :=
  encodeLE_length 8 _

theorem toSigned_decode_encodeInt32 (i : Int) (h : fitsInt32 i) :
    toSigned 32 (decodeLE (encodeInt32 i)) = i := by
  obtain ⟨h1, h2⟩ := h
  simp only [encodeInt32, decodeLE_encodeLE, toSigned, toUnsigned]
  norm_num at h1 h2 ⊢
  split_ifs <;> omega

theorem toSigned_decode_encodeInt64 (i : Int) (h1 : -(2 : Int) ^ 63 ≤ i)
    (h2 : i < (2 : Int) ^ 63) :
    toSigned 64 (decodeLE (encodeInt64 i)) = i := by
  simp only [encodeInt64, decodeLE_encodeLE, toSigned, toUnsigned]
  norm_num at h1 h2 ⊢
  split_ifs <;> omega

/-! ## Lemmas: the cursor -/

theorem readBytes_append (n : Nat) (bs s : Buffer) (h : bs.length = n) :
    readBytes n (bs ++ s) = some (bs, s) := by
  subst h
  simp [readBytes]

theorem readBytes_extend (n : Nat) (q a rest s : Buffer)
    (h : readBytes n q = some (a, rest)) :
    readBytes n (q ++ s) = some (a, rest ++ s) := by
  unfold readBytes at h ⊢
  split_ifs at h with hn
  simp only [Option.some.injEq, Prod.mk.injEq] at h
  obtain ⟨rfl, rfl⟩ := h
  have hn' : n ≤ q.length + s.length := by omega
  simp [hn', List.take_append_of_le_length hn, List.drop_append_of_le_length hn]

theorem readInt32_append (bs s : Buffer) (h : bs.length = 4) :
    readInt32 (bs ++ s) = some (toSigned 32 (decodeLE bs), s) := by
  simp [readInt32, readBytes_append 4 bs s h]

theorem readInt64_append (bs s : Buffer) (h : bs.length = 8) :
    readInt64 (bs ++ s) = some (toSigned 64 (decodeLE bs), s) := by
  simp [readInt64, readBytes_append 8 bs s h]

theorem readInt32_encode (i : Int) (s : Buffer) (h : fitsInt32 i) :
    readInt32 (encodeInt32 i ++ s) = some (i, s) := by
  rw [readInt32_append _ _ (encodeInt32_length i), toSigned_decode_encodeInt32 i h]

theorem readInt64_encode (i : Int) (s : Buffer) (h1 : -(2 : Int) ^ 63 ≤ i)
    (h2 : i < (2 : Int) ^ 63) :
    readInt64 (encodeInt64 i ++ s) = some (i, s) := by
  rw [readInt64_append _ _ (encodeInt64_length i), toSigned_decode_encodeInt64 i h1 h2]

theorem readInt32_extend (q rest s : Buffer) (v : Int)
    (h : readInt32 q = some (v, rest)) : readInt32 (q ++ s) = some (v, rest ++ s) := by
  unfold readInt32 at h ⊢
  cases hq : readBytes 4 q with
  | none => simp [hq] at h
  | some pr =>
    obtain ⟨a, r⟩ := pr
    simp only [hq, Option.some.injEq, Prod.mk.injEq] at h
    obtain ⟨rfl, rfl⟩ := h
    simp [readBytes_extend 4 q a r s hq]

theorem readInt64_extend (q rest s : Buffer) (v : Int)
    (h : readInt64 q = some (v, rest)) : readInt64 (q ++ s) = some (v, rest ++ s) := by
  unfold readInt64 at h ⊢
  cases hq : readBytes 8 q with
  | none => simp [hq] at h
  | some pr =>
    obtain ⟨a, r⟩ := pr
    simp only [hq, Option.some.injEq, Prod.mk.injEq] at h
    obtain ⟨rfl, rfl⟩ := h
    simp [readBytes_extend 8 q a r s hq]

theorem readField_frame (payload s : Buffer) (h : payload.length < 2 ^ 31) :
    readField (frame payload ++ s) = some (payload, s) := by
  have hfit : fitsInt32 (payload.length : Int) := by
    constructor
    · have : (0 : Int) ≤ (payload.length : Int) := Int.ofNat_nonneg _
      norm_num; omega
    · exact_mod_cast h
  simp only [readField, frame, List.append_assoc, readInt32_encode _ _ hfit]
  have h0 : ¬ ((payload.length : Int) < 0) := by omega
  simp [h0]

theorem readField_extend (q a rest s : Buffer)
    (h : readField q = some (a, rest)) : readField (q ++ s) = some (a, rest ++ s) := by
  unfold readField at h ⊢
  cases hq : readInt32 q with
  | none => simp [hq] at h
  | some pr =>
    obtain ⟨len, r⟩ := pr
    simp only [hq] at h
    rw [readInt32_extend q r s len hq]
    simp only
    split_ifs at h with hneg hlen
    simp only [Option.some.injEq, Prod.mk.injEq] at h
    obtain ⟨rfl, rfl⟩ := h
    have hle : len.toNat ≤ r.length := by omega
    have hlen' : ¬ ((r ++ s).length < len.toNat) := by
      rw [List.length_append]; omega
    rw [if_neg hneg, if_neg hlen', List.take_append_of_le_length hle,
      List.drop_append_of_le_length hle]

theorem readField_bad_length (lenBytes rest : Buffer) (h4 : lenBytes.length = 4)
    (hbad : toSigned 32 (decodeLE lenBytes) < 0 ∨
      (rest.length : Int) < toSigned 32 (decodeLE lenBytes)) :
    readField (lenBytes ++ rest) = none := by
  simp only [readField, readInt32_append lenBytes rest h4]
  rcases hbad with h | h
  · simp [h]
  · by_cases hneg : toSigned 32 (decodeLE lenBytes) < 0
    · simp [hneg]
    · have : rest.length < (toSigned 32 (decodeLE lenBytes)).toNat := by omega
      simp [hneg, this]

theorem readPayload_frame {α : Type} (c : PayloadCodec α) (payload s : Buffer)
    (h : payload.length < 2 ^ 31) :
    readPayload c (frame payload ++ s) = (c.decode payload).map (fun a => (a, s)) := by
  simp only [readPayload, readField_frame payload s h]
  cases c.decode payload <;> rfl

theorem readPayload_extend {α : Type} (c : PayloadCodec α) (q rest s : Buffer) (a : α)
    (h : readPayload c q = some (a, rest)) :
    readPayload c (q ++ s) = some (a, rest ++ s) := by
  unfold readPayload at h ⊢
  cases hq : readField q with
  | none => simp [hq] at h
  | some pr =>
    obtain ⟨payload, r⟩ := pr
    simp only [hq] at h
    rw [readField_extend q payload r s hq]
    simp only
    cases hd : c.decode payload with
    | none => simp [hd] at h
    | some v =>
      simp only [hd, Option.some.injEq, Prod.mk.injEq] at h
      obtain ⟨rfl, rfl⟩ := h
      rfl

theorem readPayload_bad_length {α : Type} (c : PayloadCodec α) (lenBytes rest : Buffer)
    (h4 : lenBytes.length = 4)
    (hbad : toSigned 32 (decodeLE lenBytes) < 0 ∨
      (rest.length : Int) < toSigned 32 (decodeLE lenBytes)) :
    readPayload c (lenBytes ++ rest) = none := by
  simp [readPayload, readField_bad_length lenBytes rest h4 hbad]

/-! ## Lemmas: the scan request parser -/

theorem parseScanRequest_extend {E S : Type} (ec : PayloadCodec E) (sc : PayloadCodec S)
    (q rest s : Buffer) (r : ScanRequest E S)
    (h : parseScanRequest ec sc q = some (r, rest)) :
    parseScanRequest ec sc (q ++ s) = some (r, rest ++ s) := by
  unfold parseScanRequest at h ⊢
  cases h1 : readInt32 q with
  | none => simp [h1] at h
  | some p1 =>
  obtain ⟨ff, b1⟩ := p1
  rw [readInt32_extend q b1 s ff h1]
  simp only [h1, Option.bind_eq_bind, Option.some_bind] at h ⊢
  cases h2 : readInt64 b1 with
  | none => simp [h2] at h
  | some p2 =>
  obtain ⟨fs, b2⟩ := p2
  rw [readInt64_extend b1 b2 s fs h2]
  simp only [h2, Option.some_bind] at h ⊢
  cases h3 : readPayload ec b2 with
  | none => simp [h3] at h
  | some p3 =>
  obtain ⟨x3, b3⟩ := p3
  rw [readPayload_extend ec b2 b3 s x3 h3]
  simp only [h3, Option.some_bind] at h ⊢
  cases h4 : readPayload ec b3 with
  | none => simp [h4] at h
  | some p4 =>
  obtain ⟨x4, b4⟩ := p4
  rw [readPayload_extend ec b3 b4 s x4 h4]
  simp only [h4, Option.some_bind] at h ⊢
  cases h5 : readPayload sc b4 with
  | none => simp [h5] at h
  | some p5 =>
  obtain ⟨x5, b5⟩ := p5
  rw [readPayload_extend sc b4 b5 s x5 h5]
  simp only [h5, Option.some_bind] at h ⊢
  cases h6 : readPayload sc b5 with
  | none => simp [h6] at h
  | some p6 =>
  obtain ⟨x6, b6⟩ := p6
  rw [readPayload_extend sc b5 b6 s x6 h6]
  simp only [h6, Option.some_bind, Option.pure_def, Option.some.injEq, Prod.mk.injEq] at h ⊢
  obtain ⟨rfl, rfl⟩ := h
  exact ⟨rfl, rfl⟩

/-- The parser on a buffer laid out as the encoder writes it: the framing is undone and
the four payloads are handed to the external decoders. -/
theorem parseScanRequest_layout {E S : Type} (ec : PayloadCodec E) (sc : PayloadCodec S)
    (ff fs : Int) (f p ps ds s : Buffer)
    (hff : fitsInt32 ff) (hfs1 : -(2 : Int) ^ 63 ≤ fs) (hfs2 : fs < (2 : Int) ^ 63)
    (hf : f.length < 2 ^ 31) (hp : p.length < 2 ^ 31) (hps : ps.length < 2 ^ 31)
    (hds : ds.length < 2 ^ 31) :
    parseScanRequest ec sc
        (encodeInt32 ff ++ encodeInt64 fs ++ frame f ++ frame p ++ frame ps ++ frame ds ++ s)
      = (ec.decode f).bind fun a => (ec.decode p).bind fun b =>
          (sc.decode ps).bind fun c => (sc.decode ds).bind fun d =>
            some ({ filter := a, partition := b, projected_schema := c, dataset_schema := d,
                    file_size := fs, file_format := ff }, s) := by
  unfold parseScanRequest
  simp only [List.append_assoc, readInt32_encode _ _ hff, readInt64_encode _ _ hfs1 hfs2,
    Option.bind_eq_bind, Option.some_bind, Option.pure_def]
  rw [readPayload_frame ec f _ hf]
  cases ec.decode f with
  | none => rfl
  | some a =>
  simp only [Option.map_some', Option.some_bind]
  rw [readPayload_frame ec p _ hp]
  cases ec.decode p with
  | none => rfl
  | some b =>
  simp only [Option.map_some', Option.some_bind]
  rw [readPayload_frame sc ps _ hps]
  cases sc.decode ps with
  | none => rfl
  | some c =>
  simp only [Option.map_some', Option.some_bind]
  rw [readPayload_frame sc ds _ hds]
  cases sc.decode ds with
  | none => rfl
  | some d => rfl

/-- Whatever the external decoders do, a successful parse has undone the framing. -/
theorem readPayload_framing {α : Type} (c : PayloadCodec α) (q rest : Buffer) (a : α)
    (h : readPayload c q = some (a, rest)) :
    ∃ payload, readPayload rawCodec q = some (payload, rest) := by
  unfold readPayload at h ⊢
  cases hq : readField q with
  | none => simp [hq] at h
  | some pr =>
    obtain ⟨payload, r⟩ := pr
    simp only [hq] at h
    cases hd : c.decode payload with
    | none => simp [hd] at h
    | some v =>
      simp only [hd, Option.some.injEq, Prod.mk.injEq] at h
      exact ⟨payload, by simp [rawCodec, h.2]⟩

theorem parseScanRequest_framing {E S : Type} (ec : PayloadCodec E) (sc : PayloadCodec S)
    (q rest : Buffer) (r : ScanRequest E S)
    (h : parseScanRequest ec sc q = some (r, rest)) :
    ∃ r', parseScanRequest rawCodec rawCodec q = some (r', rest) := by
  unfold parseScanRequest at h ⊢
  cases h1 : readInt32 q with
  | none => simp [h1] at h
  | some p1 =>
  obtain ⟨ff, b1⟩ := p1
  simp only [h1, Option.bind_eq_bind, Option.some_bind] at h ⊢
  cases h2 : readInt64 b1 with
  | none => simp [h2] at h
  | some p2 =>
  obtain ⟨fs, b2⟩ := p2
  simp only [h2, Option.some_bind] at h ⊢
  cases h3 : readPayload ec b2 with
  | none => simp [h3] at h
  | some p3 =>
  obtain ⟨x3, b3⟩ := p3
  obtain ⟨y3, e3⟩ := readPayload_framing ec b2 b3 x3 h3
  simp only [h3, e3, Option.some_bind] at h ⊢
  cases h4 : readPayload ec b3 with
  | none => simp [h4] at h
  | some p4 =>
  obtain ⟨x4, b4⟩ := p4
  obtain ⟨y4, e4⟩ := readPayload_framing ec b3 b4 x4 h4
  simp only [h4, e4, Option.some_bind] at h ⊢
  cases h5 : readPayload sc b4 with
  | none => simp [h5] at h
  | some p5 =>
  obtain ⟨x5, b5⟩ := p5
  obtain ⟨y5, e5⟩ := readPayload_framing sc b4 b5 x5 h5
  simp only [h5, e5, Option.some_bind] at h ⊢
  cases h6 : readPayload sc b5 with
  | none => simp [h6] at h
  | some p6 =>
  obtain ⟨x6, b6⟩ := p6
  obtain ⟨y6, e6⟩ := readPayload_framing sc b5 b6 x6 h6
  simp only [h6, e6, Option.some_bind, Option.pure_def, Option.some.injEq, Prod.mk.injEq] at h ⊢
  obtain ⟨-, rfl⟩ := h
  exact ⟨_, rfl, rfl⟩

/-- What the encoder writes for a well-formed request. -/
theorem encode_wellFormed {E S : Type} (ec : PayloadCodec E) (sc : PayloadCodec S)
    (r : ScanRequest E S) (hr : r.WellFormed ec sc) :
    ∃ f p ps ds : Buffer,
      ec.encode r.filter = some f ∧ ec.encode r.partition = some p ∧
      sc.encode r.projected_schema = some ps ∧ sc.encode r.dataset_schema = some ds ∧
      f.length < 2 ^ 31 ∧ p.length < 2 ^ 31 ∧ ps.length < 2 ^ 31 ∧ ds.length < 2 ^ 31 ∧
      r.encode ec sc = .ok (encodeInt32 r.file_format ++ encodeInt64 r.file_size ++ frame f ++
        frame p ++ frame ps ++ frame ds) := by
  obtain ⟨f, hf, lf⟩ := hr.filter_ok
  obtain ⟨p, hp, lp⟩ := hr.partition_ok
  obtain ⟨ps, hps, lps⟩ := hr.projected_ok
  obtain ⟨ds, hds, lds⟩ := hr.dataset_ok
  refine ⟨f, p, ps, ds, hf, hp, hps, hds, lf, lp, lps, lds, ?_⟩
  simp [ScanRequest.encode, SerializeScanRequest, ScanRequest.options, hf, hp, hps, hds]

theorem wellFormed_format_fits {E S : Type} (ec : PayloadCodec E) (sc : PayloadCodec S)
    (r : ScanRequest E S) (hr : r.WellFormed ec sc) : fitsInt32 r.file_format := by
  rcases hr.format_tag with h | h <;> rw [h] <;> decide

/-- A strict prefix of an encoder output cannot be parsed. -/
theorem parse_strict_prefix_none {E S : Type} (ec : PayloadCodec E) (sc : PayloadCodec S)
    (b : Buffer) (hb : ValidEncoded ec sc b) (q : Buffer) (hq : q <+: b) (hne : q ≠ b) :
    parseScanRequest ec sc q = none := by
  obtain ⟨r, hr, henc⟩ := hb
  obtain ⟨f, p, ps, ds, -, -, -, -, lf, lp, lps, lds, hout⟩ := encode_wellFormed ec sc r hr
  rw [hout] at henc
  have hbeq := Except.ok.inj henc
  obtain ⟨t, ht⟩ := hq
  have hfull := parseScanRequest_layout rawCodec rawCodec r.file_format r.file_size f p ps ds []
    (wellFormed_format_fits ec sc r hr) (by have := hr.size_nonneg; norm_num; omega)
    hr.size_int64 lf lp lps lds
  rw [List.append_nil, hbeq] at hfull
  cases hpq : parseScanRequest ec sc q with
  | none => rfl
  | some pr =>
    obtain ⟨r', rest⟩ := pr
    obtain ⟨r'', hraw⟩ := parseScanRequest_framing ec sc q rest r' hpq
    have hext := parseScanRequest_extend rawCodec rawCodec q rest t r'' hraw
    rw [ht, hfull] at hext
    simp only [rawCodec, Option.some_bind, Option.some.injEq, Prod.mk.injEq] at hext
    have ht0 : t = [] := by
      have := hext.2
      cases t with
      | nil => rfl
      | cons x xs => simp at this
    subst ht0
    simp at ht
    exact absurd ht hne

/-- The parser over a 12-octet header followed by anything. -/
theorem readHeader {E S : Type} (ec : PayloadCodec E) (sc : PayloadCodec S)
    (hdr tail : Buffer) (h : hdr.length = 12) :
    parseScanRequest ec sc (hdr ++ tail)
      = (readPayload ec tail).bind fun x3 => (readPayload ec x3.2).bind fun x4 =>
          (readPayload sc x4.2).bind fun x5 => (readPayload sc x5.2).bind fun x6 =>
            some ({ filter := x3.1, partition := x4.1, projected_schema := x5.1,
                    dataset_schema := x6.1,
                    file_size := toSigned 64 (decodeLE ((hdr.drop 4))),
                    file_format := toSigned 32 (decodeLE (hdr.take 4)) }, x6.2) := by
  have h4 : (hdr.take 4).length = 4 := by simp [h]
  have h8 : (hdr.drop 4).length = 8 := by simp [h]
  have hsplit : hdr ++ tail = hdr.take 4 ++ (hdr.drop 4 ++ tail) := by
    rw [← List.append_assoc, List.take_append_drop]
  unfold parseScanRequest
  rw [hsplit, readInt32_append _ _ h4]
  simp only [Option.bind_eq_bind, Option.some_bind, Option.pure_def]
  rw [readInt64_append _ _ h8]
  rfl

/-- A buffer whose header and first `pre.length` fields are well framed and whose next
length field is negative or larger than what follows cannot be parsed. -/
theorem parse_bad_length_none {E S : Type} (ec : PayloadCodec E) (sc : PayloadCodec S)
    (hdr : Buffer) (pre : List Buffer) (lenBytes rest : Buffer)
    (hhdr : hdr.length = 12) (hpre : pre.length < 4)
    (hsmall : ∀ x ∈ pre, x.length < 2 ^ 31) (h4 : lenBytes.length = 4)
    (hbad : toSigned 32 (decodeLE lenBytes) < 0 ∨
      (rest.length : Int) < toSigned 32 (decodeLE lenBytes)) :
    parseScanRequest ec sc (hdr ++ ((pre.map frame).flatten ++ (lenBytes ++ rest))) = none := by
  rw [readHeader ec sc hdr _ hhdr]
  have hE := readPayload_bad_length ec lenBytes rest h4 hbad
  have hS := readPayload_bad_length sc lenBytes rest h4 hbad
  match pre, hpre, hsmall with
  | [], _, _ =>
    simp [hE]
  | [a], _, hs =>
    have ha : a.length < 2 ^ 31 := hs a (by simp)
    simp only [List.map_cons, List.map_nil, List.flatten_cons, List.flatten_nil, List.append_nil,
      readPayload_frame ec a _ ha]
    cases ec.decode a <;> simp [hE]
  | [a, b], _, hs =>
    have ha : a.length < 2 ^ 31 := hs a (by simp)
    have hb : b.length < 2 ^ 31 := hs b (by simp)
    simp only [List.map_cons, List.map_nil, List.flatten_cons, List.flatten_nil, List.append_nil,
      List.append_assoc, readPayload_frame ec a _ ha]
    cases ec.decode a with
    | none => rfl
    | some va =>
      simp only [Option.map_some', Option.some_bind, readPayload_frame ec b _ hb]
      cases ec.decode b <;> simp [hS]
  | [a, b, c], _, hs =>
    have ha : a.length < 2 ^ 31 := hs a (by simp)
    have hb : b.length < 2 ^ 31 := hs b (by simp)
    have hc : c.length < 2 ^ 31 := hs c (by simp)
    simp only [List.map_cons, List.map_nil, List.flatten_cons, List.flatten_nil, List.append_nil,
      List.append_assoc, readPayload_frame ec a _ ha]
    cases ec.decode a with
    | none => rfl
    | some va =>
      simp only [Option.map_some', Option.some_bind, readPayload_frame ec b _ hb]
      cases ec.decode b with
      | none => rfl
      | some vb =>
        simp only [Option.map_some', Option.some_bind, readPayload_frame sc c _ hc]
        cases sc.decode c <;> simp [hS]
  | _ :: _ :: _ :: _ :: _, hlen, _ =>
    exfalso
    simp only [List.length_cons] at hlen
    omega

/-! ## Theorems: scan request codec -/

/-- C5: for lawful external codecs and every well-formed request `r`, the encoder
succeeds and the decoder applied to its output succeeds and returns exactly the six
fields of `r`. -/
theorem scanRequest_roundtrip {E S : Type} (ec : PayloadCodec E) (sc : PayloadCodec S)
    (hec : ec.Lawful) (hsc : sc.Lawful) (r : ScanRequest E S) (hr : r.WellFormed ec sc) :
    ∃ b, SerializeScanRequest ec sc r.options r.file_format r.file_size = .ok b ∧
      DeserializeScanRequest ec sc b = .ok r := by
  obtain ⟨f, p, ps, ds, hf, hp, hps, hds, lf, lp, lps, lds, hout⟩ := encode_wellFormed ec sc r hr
  refine ⟨_, hout, ?_⟩
  have hparse := parseScanRequest_layout ec sc r.file_format r.file_size f p ps ds []
    (wellFormed_format_fits ec sc r hr) (by have := hr.size_nonneg; norm_num; omega)
    hr.size_int64 lf lp lps lds
  rw [List.append_nil] at hparse
  simp only [DeserializeScanRequest, hparse, hec _ _ hf, hec _ _ hp, hsc _ _ hps, hsc _ _ hds,
    Option.some_bind]

/-- Instance of C5 on `sampleRequest` with the raw codec. -/
theorem scanRequest_roundtrip_witness :
    ∃ b, SerializeScanRequest rawCodec rawCodec sampleRequest.options 1 1000 = .ok b ∧
      DeserializeScanRequest rawCodec rawCodec b = .ok sampleRequest :=
  scanRequest_roundtrip rawCodec rawCodec
    (fun a bs h => by simp only [rawCodec, Option.some.injEq] at h ⊢; exact h.symm)
    (fun a bs h => by simp only [rawCodec, Option.some.injEq] at h ⊢; exact h.symm)
    sampleRequest
    { size_nonneg := by decide
      size_int64 := by decide
      format_tag := Or.inr rfl
      filter_ok := ⟨[1, 2, 3], rfl, by decide⟩
      partition_ok := ⟨[], rfl, by decide⟩
      projected_ok := ⟨[7], rfl, by decide⟩
      dataset_ok := ⟨[7, 8], rfl, by decide⟩ }

/-- C6: the decoder fails with DeserializationError (code 26) on every strict prefix of
a valid encoded request, and on every buffer in which, after a 12-octet header and up to
three well-framed fields, the next length field is negative or exceeds the number of
octets that follow it. -/
theorem deserialize_rejects_truncated_and_bad_length {E S : Type}
    (ec : PayloadCodec E) (sc : PayloadCodec S) :
    (∀ b : Buffer, ValidEncoded ec sc b → ∀ q : Buffer, q <+: b → q ≠ b →
      DeserializeScanRequest ec sc q = .error .DeserializationError) ∧
    (∀ (hdr : Buffer) (pre : List Buffer) (lenBytes rest : Buffer),
      hdr.length = 12 → pre.length < 4 → (∀ x ∈ pre, x.length < 2 ^ 31) →
      lenBytes.length = 4 →
      (toSigned 32 (decodeLE lenBytes) < 0 ∨
        (rest.length : Int) < toSigned 32 (decodeLE lenBytes)) →
      DeserializeScanRequest ec sc (hdr ++ ((pre.map frame).flatten ++ (lenBytes ++ rest)))
        = .error .DeserializationError) ∧
    ErrorKind.DeserializationError.code = 26 ∧
    ErrorKind.DeserializationError.message = "failed to deserialize scan request" := by
  refine ⟨?_, ?_, rfl, rfl⟩
  · intro b hb q hq hne
    simp only [DeserializeScanRequest, parse_strict_prefix_none ec sc b hb q hq hne]
  · intro hdr pre lenBytes rest hhdr hpre hsmall h4 hbad
    simp only [DeserializeScanRequest,
      parse_bad_length_none ec sc hdr pre lenBytes rest hhdr hpre hsmall h4 hbad]

/-- Instance of C6: `sampleEncoded` cut after 33 octets, and a buffer whose second
length field announces 5 octets where 2 follow, are both rejected. -/
theorem deserialize_rejects_truncated_and_bad_length_witness :
    DeserializeScanRequest rawCodec rawCodec (sampleEncoded.take 33)
      = (.error .DeserializationError : Except ErrorKind (ScanRequest Buffer Buffer)) ∧
    DeserializeScanRequest rawCodec rawCodec
        ([1, 0, 0, 0, 232, 3, 0, 0, 0, 0, 0, 0] ++
          (([[1, 2, 3]].map frame).flatten ++ ([5, 0, 0, 0] ++ [9, 9])))
      = (.error .DeserializationError : Except ErrorKind (ScanRequest Buffer Buffer)) :=
  ⟨(deserialize_rejects_truncated_and_bad_length rawCodec rawCodec).1 sampleEncoded
      ⟨sampleRequest,
        { size_nonneg := by decide
          size_int64 := by decide
          format_tag := Or.inr rfl
          filter_ok := ⟨[1, 2, 3], rfl, by decide⟩
          partition_ok := ⟨[], rfl, by decide⟩
          projected_ok := ⟨[7], rfl, by decide⟩
          dataset_ok := ⟨[7, 8], rfl, by decide⟩ },
        by decide⟩
      (sampleEncoded.take 33) ⟨[8], by decide⟩ (by decide),
   (deserialize_rejects_truncated_and_bad_length rawCodec rawCodec).2.1
      [1, 0, 0, 0, 232, 3, 0, 0, 0, 0, 0, 0] [[1, 2, 3]] [5, 0, 0, 0] [9, 9]
      (by decide) (by decide) (by decide) (by decide) (Or.inr (by decide))⟩

/-! ## Lemmas: traversals in `Option` -/

section Traversal

variable {α β γ : Type}

theorem mapM_cons_option (f : α → Option β) (a : α) (l : List α) :
    (a :: l).mapM f = (f a).bind fun b => (l.mapM f).bind fun bs => some (b :: bs) := by
  rw [List.mapM_cons]
  rfl

/-- A traversal that succeeded is undone by traversing with a left inverse. -/
theorem mapM_inverse (f : α → Option β) (g : β → Option α) (l : List α) (l' : List β)
    (hfg : ∀ a ∈ l, ∀ b, f a = some b → g b = some a)
    (h : l.mapM f = some l') : l'.mapM g = some l := by
  induction l generalizing l' with
  | nil =>
    simp only [List.mapM_nil, Option.pure_def, Option.some.injEq] at h
    subst h; rfl
  | cons a l ih =>
    rw [mapM_cons_option] at h
    cases hfa : f a with
    | none => rw [hfa] at h; simp at h
    | some b =>
      rw [hfa] at h
      cases hl : l.mapM f with
      | none => rw [hl] at h; simp at h
      | some bs =>
        rw [hl] at h
        simp only [Option.some_bind, Option.some.injEq] at h
        subst h
        rw [mapM_cons_option, hfg a (List.mem_cons_self _ _) b hfa,
          ih bs (fun x hx => hfg x (List.mem_cons_of_mem _ hx)) hl]
        rfl

theorem mapM_length (f : α → Option β) (l : List α) (l' : List β)
    (h : l.mapM f = some l') : l'.length = l.length := by
  induction l generalizing l' with
  | nil =>
    simp only [List.mapM_nil, Option.pure_def, Option.some.injEq] at h
    subst h; rfl
  | cons a l ih =>
    rw [mapM_cons_option] at h
    cases hfa : f a with
    | none => rw [hfa] at h; simp at h
    | some b =>
      rw [hfa] at h
      cases hl : l.mapM f with
      | none => rw [hl] at h; simp at h
      | some bs =>
        rw [hl] at h
        simp only [Option.some_bind, Option.some.injEq] at h
        subst h
        simp [ih bs hl]

theorem mapM_succeeds (f : α → Option β) (l : List α)
    (h : ∀ a ∈ l, ∃ b, f a = some b) : ∃ l', l.mapM f = some l' := by
  induction l with
  | nil => exact ⟨[], rfl⟩
  | cons a l ih =>
    obtain ⟨b, hb⟩ := h a (List.mem_cons_self _ _)
    obtain ⟨bs, hbs⟩ := ih (fun x hx => h x (List.mem_cons_of_mem _ hx))
    exact ⟨b :: bs, by rw [mapM_cons_option, hb, hbs]; rfl⟩

theorem mapM_congr_option (f g : α → Option β) (l : List α)
    (h : ∀ a ∈ l, f a = g a) : l.mapM f = l.mapM g := by
  induction l with
  | nil => rfl
  | cons a l ih =>
    rw [mapM_cons_option, mapM_cons_option, h a (List.mem_cons_self _ _),
      ih (fun x hx => h x (List.mem_cons_of_mem _ hx))]

theorem mapM_map_option (f : β → Option γ) (g : α → β) (l : List α) :
    (l.map g).mapM f = l.mapM (fun a => f (g a)) := by
  induction l with
  | nil => rfl
  | cons a l ih => rw [List.map_cons, mapM_cons_option, mapM_cons_option, ih]

/-- Traversing the indices of a list and fetching each element is traversing the list. -/
theorem mapM_range_getElem (f : α → Option β) (l : List α) :
    (List.range l.length).mapM (fun i => l[i]?.bind f) = l.mapM f := by
  induction l with
  | nil => rfl
  | cons a l ih =>
    rw [List.length_cons, List.range_succ_eq_map, mapM_cons_option, mapM_map_option,
      mapM_cons_option]
    simp only [List.getElem?_cons_zero, Option.some_bind, List.getElem?_cons_succ]
    rw [ih]

/-- The result kept for index `i` is the one computed for `i`, wherever `i` stands in the
completion order. -/
theorem lookup_map_self (g : Nat → β) (l : List Nat) (i : Nat) (h : i ∈ l) :
    (l.map (fun j => (j, g j))).lookup i = some (g i) := by
  induction l with
  | nil => simp at h
  | cons a l ih =>
    simp only [List.map_cons, List.lookup_cons]
    by_cases hia : i = a
    · subst hia; simp
    · have : (i == a) = false := by simpa using hia
      rw [this]
      exact ih (by simpa [hia] using h)

end Traversal

/-! ## Lemmas: the result table codec -/

theorem storeField_inverse {S B : Type} (env : TableCodecs S B) (henv : env.Lawful)
    (codec : Compression) (body : Buffer) (f : StoredField)
    (h : storeField env codec body = some f) : env.decompress f.codec f.body = some body := by
  unfold storeField at h
  cases hc : env.compress codec body with
  | none => simp [hc] at h
  | some y =>
    simp only [hc, Option.some.injEq] at h
    subst h
    exact henv.compress_law codec body y hc

theorem storeBatch_inverse {S B : Type} (env : TableCodecs S B) (henv : env.Lawful)
    (codec : Compression) (schema : S) (batch : B) (stored : List StoredField)
    (h : storeBatch env codec schema batch = some stored) :
    loadBatch env schema stored = some batch := by
  unfold storeBatch at h
  cases he : env.encodeBatch schema batch with
  | none => simp [he] at h
  | some bodies =>
    simp only [he] at h
    have := mapM_inverse (storeField env codec) (fun f => env.decompress f.codec f.body)
      bodies stored (fun a _ b hb => storeField_inverse env henv codec a b hb) h
    simp only [loadBatch, this]
    exact henv.batch_law schema batch bodies he

theorem storeBatch_succeeds {S B : Type} (env : TableCodecs S B) (codec : Compression)
    (schema : S) (batch : B)
    (h : ∃ bodies, env.encodeBatch schema batch = some bodies ∧
      ∀ body ∈ bodies, ∃ y, env.compress codec body = some y) :
    ∃ stored, storeBatch env codec schema batch = some stored := by
  obtain ⟨bodies, he, hc⟩ := h
  simp only [storeBatch, he]
  apply mapM_succeeds
  intro body hb
  obtain ⟨y, hy⟩ := hc body hb
  exact ⟨{ codec := codec, body := y }, by simp [storeField, hy]⟩

/-- With every index handed to a worker, the threaded read returns what the sequential
read returns. -/
theorem loadThreaded_eq_sequential {S B : Type} (env : TableCodecs S B) (schema : S)
    (stored : List (List StoredField)) (completion : List Nat)
    (hcov : CoversAll stored.length completion) :
    loadThreaded env schema stored completion = loadSequential env schema stored := by
  unfold loadThreaded loadSequential
  rw [← mapM_range_getElem (loadBatch env schema) stored]
  apply mapM_congr_option
  intro i hi
  have hmem : i ∈ completion := hcov i (List.mem_range.mp hi)
  rw [lookup_map_self (fun j => stored[j]?.bind (loadBatch env schema)) completion i hmem]
  rfl

/-! ## Theorems: result table codec -/

/-- C7: for lawful collaborators that accept the table, every value of `aggressive`,
every value of `use_threads` and every order in which workers finish, the encoder
succeeds, the embedded schema reads back as the table's schema, and the decoder returns
the table's batches, in their order. -/
theorem table_roundtrip {S B : Type} (env : TableCodecs S B) (henv : env.Lawful)
    (t : Table S B) (aggressive use_threads : Bool) (completion : List Nat)
    (hacc : env.Accepts (selectCompression aggressive) t)
    (hcov : use_threads = true → CoversAll t.batches.length completion) :
    ∃ bl, SerializeTable env t aggressive = .ok bl ∧
      env.schema.decode bl.schema = some t.schema ∧
      DeserializeTable env bl use_threads completion = .ok t.batches := by
  obtain ⟨⟨sb, hsb⟩, hbatches⟩ := hacc
  obtain ⟨stored, hst⟩ := mapM_succeeds
    (storeBatch env (selectCompression aggressive) t.schema) t.batches
    (fun b hb => storeBatch_succeeds env _ _ b (hbatches b hb))
  have hschema := henv.schema_law t.schema sb hsb
  have hseq : loadSequential env t.schema stored = some t.batches :=
    mapM_inverse _ (loadBatch env t.schema) t.batches stored
      (fun a _ b hb => storeBatch_inverse env henv _ t.schema a b hb) hst
  have hlen : stored.length = t.batches.length := mapM_length _ _ _ hst
  refine ⟨{ schema := sb, batches := stored }, ?_, hschema, ?_⟩
  · simp only [SerializeTable, hsb, hst]
  · simp only [DeserializeTable, hschema]
    cases use_threads with
    | false => simp [hseq]
    | true =>
      have := loadThreaded_eq_sequential env t.schema stored completion
        (by rw [hlen]; exact hcov rfl)
      simp [this, hseq]

/-- Instance of C7: `sampleTable`, high-ratio codec, workers finishing in the order
2, 0, 1. -/
theorem table_roundtrip_witness :
    ∃ bl, SerializeTable toyCodecs sampleTable true = .ok bl ∧
      toyCodecs.schema.decode bl.schema = some sampleTable.schema ∧
      DeserializeTable toyCodecs bl true [2, 0, 1] = .ok [[[1, 2], [3]], [[4]], []] :=
  table_roundtrip toyCodecs
    { schema_law := fun a bs h => by
        simp only [toyCodecs, rawCodec, Option.some.injEq] at h ⊢; exact h.symm
      batch_law := fun s b bodies h => by
        simp only [toyCodecs, Option.some.injEq] at h ⊢; exact h.symm
      compress_law := fun c x y h => by
        cases c <;> simp only [toyCodecs, toyCompress, Option.some.injEq] at h <;>
          subst h <;> simp [toyCodecs, toyDecompress] }
    sampleTable true true [2, 0, 1]
    ⟨⟨[7], rfl⟩, fun b _ => ⟨b, rfl, fun body _ => ⟨(1 : Byte) :: body.reverse, rfl⟩⟩⟩
    (fun _ => by unfold CoversAll; decide)

end Skyhook
